import Mathlib

/-!
Verification of the HiCR neural-network example pipeline
(`examples/neuralNetwork/python/dataset/dataset.py` and
`examples/neuralNetwork/python/model/network.py`).

Shallow embedding conventions:
* A byte is a `Nat` (< 256 in well-formed streams).
* A float32 value is modelled by its 32-bit pattern, a `Nat < 2^32`;
  `struct.pack('f', v)` / `struct.pack('I', n)` both emit the 4 bytes of the
  32-bit pattern in little-endian order, and unpacking is its inverse, so the
  pack/unpack round trip is exact at this level.
* Rationals `ℚ` stand in for the real-valued arithmetic of the network
  (exact field arithmetic; the claims checked here are about structure,
  accumulation and order, not about rounding).
* The file system is a partial map from file names to byte lists; the
  exporter's output names are the inductive `FileName` (injective by
  construction, as `image_<i>.bin` names are in the source).
-/

namespace HiCRNN

/-- Little-endian 4-byte encoding of a 32-bit unsigned value, as produced by
`struct.pack('I', n)` (and, on the bit-pattern of a float32, by
`struct.pack('f', v)`). -/
def le4 (n : Nat) : List Nat :=
  [n % 256, n / 256 % 256, n / 65536 % 256, n / 16777216 % 256]

/-- Decode one little-endian 4-byte record back to its 32-bit value. -/
def deLe4 (b : List Nat) : Nat :=
  match b with
  | [b0, b1, b2, b3] => b0 + 256 * (b1 + 256 * (b2 + 256 * b3))
  | _ => 0

/-- Split a list into consecutive chunks of size `k` (the last chunk may be
shorter).  This is both the 4-byte record structure of the binary files and
the batching of `torch.utils.data.DataLoader` with `shuffle=False`. -/
def chunksOf (k : Nat) : List α → List (List α)
  | [] => []
  | x :: xs => (x :: xs.take (k - 1)) :: chunksOf k (xs.drop (k - 1))
termination_by l => l.length
decreasing_by
  simp only [List.length_drop, List.length_cons]
  omega

/-- Decode a byte stream as consecutive unsigned little-endian 32-bit records. -/
def decodeU32s (bs : List Nat) : List Nat :=
  (chunksOf 4 bs).map deLe4

/-- Row-major flattening of a grid (`numpy.flatten` on a row-major array,
`torch.flatten` on a contiguous tensor). -/
def flattenGrid : List (List α) → List α
  | [] => []
  | r :: rs => r ++ flattenGrid rs

/-- A dataset sample as the exporter sees it: a 28×28 grid of float32 pixel
bit-patterns and an integer label. -/
structure Sample where
  image : List (List Nat)
  label : Nat

/-- The byte content of one `image_<idx>.bin` file: the per-pixel write loop
`for value in image_np: f.write(struct.pack('f', value))` over the row-major
flattened image. -/
def imageBin (img : List (List Nat)) : List Nat :=
  (flattenGrid img).foldr (fun v acc => le4 v ++ acc) []

/-- The byte content accumulated into `labels.bin`: one
`struct.pack('I', label)` record per sample, appended in enumeration order
with no separators. -/
def labelsBin : List Nat → List Nat
  | [] => []
  | l :: ls => le4 l ++ labelsBin ls

/-- Output file names of the exporter.  `image i` stands for
`image_<i>.bin`, `labels` for `labels.bin`; distinct indices give distinct
names, as decimal-printed indices do in the source. -/
inductive FileName where
  | labels : FileName
  | image : Nat → FileName
deriving DecidableEq

/-- A file system state: file name to byte content. -/
def FS : Type := FileName → Option (List Nat)

/-- Opening a file with mode `'wb'` and writing `bytes` replaces any previous
content of that name. -/
def writeFile (fs : FS) (name : FileName) (bytes : List Nat) : FS :=
  fun n => if n = name then some bytes else fs n

/-- One iteration of the export loop body at `(idx, sample)`: write
`image_<idx>.bin` and append the packed label to the label stream. -/
def exportStep (acc : FS × List Nat) (p : Nat × Sample) : FS × List Nat :=
  (writeFile acc.1 (FileName.image p.1) (imageBin p.2.image),
   acc.2 ++ le4 p.2.label)

/-- The full export run of `dataset.py` on a split: iterate the samples in
enumeration order (`enumerate(mnist_test)`), write one image file per index,
and finally the accumulated label stream as `labels.bin`. -/
def exportRun (fs : FS) (samples : List Sample) : FS :=
  let r := (samples.enum).foldl exportStep (fs, [])
  writeFile r.1 FileName.labels r.2

/-- Dot product of two vectors. -/
def dot (v w : List ℚ) : ℚ :=
  (List.zipWith (· * ·) v w).sum

/-- A linear (fully connected) layer: weight matrix stored row-major with
shape (out, in), plus a bias vector, as in `torch.nn.Linear`. -/
structure Linear where
  weight : List (List ℚ)
  bias : List ℚ

/-- `torch.nn.Linear` application: output = weight·input + bias, one dot
product per weight row. -/
def Linear.apply (l : Linear) (x : List ℚ) : List ℚ :=
  List.zipWith (fun row b => dot row x + b) l.weight l.bias

/-- Elementwise ReLU, `torch.relu`. -/
def reluV (v : List ℚ) : List ℚ :=
  v.map (fun a => max 0 a)

/-- Elementwise addition of two same-width vectors, `torch.add` on matching
shapes. -/
def addV (v w : List ℚ) : List ℚ :=
  List.zipWith (· + ·) v w

/-- The branching network of `network.py`: five linear layers.  In the source
their shapes are gemm1 784→512, left_branch_gemm1 512→200, left_branch_gemm2
200→100, right_branch_gemm1 512→100, gemm2 100→10; here weights are fields so
shape facts are stated as hypotheses. -/
structure NeuralNetwork where
  gemm1 : Linear
  left_branch_gemm1 : Linear
  left_branch_gemm2 : Linear
  right_branch_gemm1 : Linear
  gemm2 : Linear

/-- `NeuralNetwork.forward` exactly as written in the source: flatten, trunk
with ReLU, two-layer left branch with ReLUs, one-layer right branch with
ReLU, elementwise add, and the head `gemm2` with no activation. -/
def NeuralNetwork.forward (m : NeuralNetwork) (x0 : List (List ℚ)) : List ℚ :=
  let x := flattenGrid x0
  let x := reluV (m.gemm1.apply x)
  let left := reluV (m.left_branch_gemm1.apply x)
  let left := reluV (m.left_branch_gemm2.apply left)
  let right := reluV (m.right_branch_gemm1.apply x)
  let x := addV left right
  m.gemm2.apply x

/-- The trunk activation `relu(gemm1(flatten(x)))` shared by both branches. -/
def NeuralNetwork.trunkOut (m : NeuralNetwork) (x0 : List (List ℚ)) : List ℚ :=
  reluV (m.gemm1.apply (flattenGrid x0))

/-- The left-branch output fed into the merge. -/
def NeuralNetwork.leftOut (m : NeuralNetwork) (x0 : List (List ℚ)) : List ℚ :=
  reluV (m.left_branch_gemm2.apply (reluV (m.left_branch_gemm1.apply (m.trunkOut x0))))

/-- The right-branch output fed into the merge. -/
def NeuralNetwork.rightOut (m : NeuralNetwork) (x0 : List (List ℚ)) : List ℚ :=
  reluV (m.right_branch_gemm1.apply (m.trunkOut x0))

/-- The merged tensor `torch.add(left, right)` passed to the output head. -/
def NeuralNetwork.merged (m : NeuralNetwork) (x0 : List (List ℚ)) : List ℚ :=
  addV (m.leftOut x0) (m.rightOut x0)

/-- Forward pass following the spec's wording: `t = ReLU(trunk(flatten(x)));
left = ReLU(leftB(ReLU(leftA(t)))); right = ReLU(right(t));
output = head(left + right)` with no activation on the head. -/
def specForwardPass (m : NeuralNetwork) (x0 : List (List ℚ)) : List ℚ :=
  let t := reluV (m.gemm1.apply (flattenGrid x0))
  let left := reluV (m.left_branch_gemm2.apply (reluV (m.left_branch_gemm1.apply t)))
  let right := reluV (m.right_branch_gemm1.apply t)
  m.gemm2.apply (addV left right)

/-- First index attaining the maximum of a score vector:
`output.argmax(dim=1)`, which for repeated maxima returns the first maximal
index.  Empty input (never produced by the head) maps to 0. -/
def argmaxIdx : List ℚ → Nat
  | [] => 0
  | x :: xs =>
    let j := argmaxIdx xs
    match xs[j]? with
    | none => 0
    | some m => if x < m then j + 1 else 0

/-- Errors of the pipeline's error taxonomy. -/
inductive PipelineError where
  | DatasetUnavailable : PipelineError
  | IOError : PipelineError
  | ShapeMismatch : PipelineError
  | UnsupportedOperatorForExport : PipelineError
deriving DecidableEq

/-- Modelled from the spec: the merge "fails with `ShapeMismatch` if widths
differ" — the checked elementwise addition the spec requires when widths
become configurable (the source pins both widths to 100 and relies on the
backend to reject mismatched shapes). -/
def addVChecked (v w : List ℚ) : Except PipelineError (List ℚ) :=
  if v.length = w.length then Except.ok (addV v w) else Except.error PipelineError.ShapeMismatch

/-- Forward pass with the checked merge: identical to
`NeuralNetwork.forward` except the merge validates the widths before any
output is produced. -/
def NeuralNetwork.forwardChecked (m : NeuralNetwork) (x0 : List (List ℚ)) :
    Except PipelineError (List ℚ) :=
  match addVChecked (m.leftOut x0) (m.rightOut x0) with
  | Except.ok x => Except.ok (m.gemm2.apply x)
  | Except.error e => Except.error e

/-- A sample as the evaluation loop sees it after `ToTensor`: a grid of
rational pixel values plus the integer label. -/
structure EvalSample where
  image : List (List ℚ)
  label : Nat

/-- The per-epoch evaluation counters of the source
(`test_loss = 0; correct = 0`). -/
structure EvalAcc where
  test_loss : ℚ
  correct : Nat

/-- One iteration of the eval loop body on a batch, threading the model
state.  `crit scores label` is the per-sample multi-class cross-entropy of
`nn.CrossEntropyLoss` (kept abstract: its value is transcendental, but every
claim checked here concerns the accumulation around it);
`criterion(output, target)` with the default mean reduction contributes the
batch mean of the per-sample losses, and `.item()` adds it to `test_loss`.
`pred = output.argmax(dim=1)` and `correct` counts predictions equal to the
label.  The body reads the model and never writes it. -/
def evalBatchStep (crit : List ℚ → Nat → ℚ) (st : NeuralNetwork × EvalAcc)
    (batch : List EvalSample) : NeuralNetwork × EvalAcc :=
  let m := st.1
  let losses := batch.map (fun s => crit (m.forward s.image) s.label)
  let hits := (batch.filter (fun s => argmaxIdx (m.forward s.image) == s.label)).length
  (m, ⟨st.2.test_loss + losses.sum / (batch.length : ℚ), st.2.correct + hits⟩)

/-- The whole `EVAL_EPOCH` of the source: iterate the held-out split in
batches of 1000 in order (`DataLoader(..., batch_size=1000, shuffle=False)`),
accumulate `test_loss` and `correct`, then report
`test_loss /= len(test_loader.dataset)` and
`accuracy = 100. * correct / len(test_loader.dataset)`.
Returns (model state after the epoch, reported test loss, reported
accuracy). -/
def evalEpoch (crit : List ℚ → Nat → ℚ) (m : NeuralNetwork)
    (data : List EvalSample) : NeuralNetwork × ℚ × ℚ :=
  let st := (chunksOf 1000 data).foldl (evalBatchStep crit) (m, ⟨0, 0⟩)
  (st.1, st.2.test_loss / (data.length : ℚ),
   100 * (st.2.correct : ℚ) / (data.length : ℚ))

/-- The mean per-sample loss over a split: the sum of per-sample losses
divided by the number of samples — what the claim says the reported test
loss equals. -/
def meanLoss (crit : List ℚ → Nat → ℚ) (m : NeuralNetwork)
    (data : List EvalSample) : ℚ :=
  (data.map (fun s => crit (m.forward s.image) s.label)).sum / (data.length : ℚ)

/-- Stages of the training-loop state machine, recorded when they complete. -/
inductive Stage where
  | TRAIN : Nat → Stage
  | EVAL : Nat → Stage
  | EXPORT : Stage
deriving DecidableEq

/-- The epoch loop `for epoch in range(10)` starting at epoch `e` with `n`
epochs remaining.  `tOk i` / `eOk i` say whether the train / eval body of
epoch `i` runs to completion or raises; a raise aborts the loop at once.
Returns the completed stages in order and whether the loop finished. -/
def runEpochsFrom (tOk eOk : Nat → Bool) (e : Nat) : Nat → List Stage × Bool
  | 0 => ([], true)
  | n + 1 =>
    if tOk e then
      if eOk e then
        let r := runEpochsFrom tOk eOk (e + 1) n
        (Stage.TRAIN e :: Stage.EVAL e :: r.1, r.2)
      else ([Stage.TRAIN e], false)
    else ([], false)

/-- The `__main__` sequence of `network.py`: dataset loading (which can raise
`DatasetUnavailable` before any epoch runs), then the 10-epoch train/eval
loop, then — only if everything completed — the one ONNX export.  Returns
the completed stages in order and whether the run succeeded; a run that did
not succeed never records the `EXPORT` stage, i.e. produces no export
artifact. -/
def runPipeline (datasetOk : Bool) (tOk eOk : Nat → Bool) : List Stage × Bool :=
  if datasetOk then
    let r := runEpochsFrom tOk eOk 0 10
    if r.2 then (r.1 ++ [Stage.EXPORT], true) else (r.1, false)
  else ([], false)

/-- The stage trace of a fully successful run. -/
def fullTrace : List Stage :=
  [Stage.TRAIN 0, Stage.EVAL 0, Stage.TRAIN 1, Stage.EVAL 1,
   Stage.TRAIN 2, Stage.EVAL 2, Stage.TRAIN 3, Stage.EVAL 3,
   Stage.TRAIN 4, Stage.EVAL 4, Stage.TRAIN 5, Stage.EVAL 5,
   Stage.TRAIN 6, Stage.EVAL 6, Stage.TRAIN 7, Stage.EVAL 7,
   Stage.TRAIN 8, Stage.EVAL 8, Stage.TRAIN 9, Stage.EVAL 9,
   Stage.EXPORT]

/-- File names the export run writes for a split of `n` samples. -/
def exportedName (n : Nat) : FileName → Prop
  | FileName.labels => True
  | FileName.image i => i < n

/-! Helper lemmas about the byte-level encodings. -/

lemma le4_length (n : Nat) : (le4 n).length = 4 := rfl

lemma deLe4_le4 (n : Nat) (h : n < 4294967296) : deLe4 (le4 n) = n := by
  simp only [le4, deLe4]
  omega

lemma chunksOf_cons4 (a b c d : Nat) (rest : List Nat) :
    chunksOf 4 (a :: b :: c :: d :: rest) = [a, b, c, d] :: chunksOf 4 rest := by
  rw [chunksOf]
  rfl

lemma labelsBin_length (ls : List Nat) : (labelsBin ls).length = 4 * ls.length := by
  induction ls with
  | nil => rfl
  | cons l ls ih =>
    simp only [labelsBin, List.length_append, List.length_cons, ih, le4_length]
    ring

lemma decodeU32s_labelsBin (ls : List Nat) (h : ∀ l ∈ ls, l < 4294967296) :
    decodeU32s (labelsBin ls) = ls := by
  induction ls with
  | nil => simp [decodeU32s, labelsBin, chunksOf]
  | cons l ls ih =>
    have hl : l < 4294967296 := h l (List.mem_cons_self l ls)
    have hrest : ∀ x ∈ ls, x < 4294967296 := fun x hx => h x (List.mem_cons_of_mem l hx)
    have step : labelsBin (l :: ls) =
        l % 256 :: l / 256 % 256 :: l / 65536 % 256 :: l / 16777216 % 256 :: labelsBin ls := rfl
    simp only [decodeU32s, step, chunksOf_cons4, List.map_cons]
    refine List.cons_eq_cons.mpr ⟨?_, ?_⟩
    · simpa [le4] using deLe4_le4 l hl
    · simpa [decodeU32s] using ih hrest

lemma imageBin_eq_labelsBin (img : List (List Nat)) :
    imageBin img = labelsBin (flattenGrid img) := by
  show (flattenGrid img).foldr (fun v acc => le4 v ++ acc) [] = labelsBin (flattenGrid img)
  induction flattenGrid img with
  | nil => rfl
  | cons v vs ih => simp [List.foldr_cons, ih, labelsBin]

lemma flattenGrid_length (g : List (List α)) :
    (flattenGrid g).length = (g.map List.length).sum := by
  induction g with
  | nil => rfl
  | cons r rs ih => simp [flattenGrid, ih]

lemma flattenGrid_length_28 (g : List (List α)) (h1 : g.length = 28)
    (h2 : ∀ r ∈ g, r.length = 28) : (flattenGrid g).length = 784 := by
  rw [flattenGrid_length]
  have hrep : g.map List.length = List.replicate 28 28 := by
    rw [List.eq_replicate_iff]
    refine ⟨by simpa using h1, ?_⟩
    intro x hx
    obtain ⟨r, hr, rfl⟩ := List.mem_map.mp hx
    exact h2 r hr
  rw [hrep]
  simp [List.sum_replicate]

/-! Helper lemmas about the export loop. -/

lemma exportFold_snd (l : List (Nat × Sample)) (fs : FS) (lab : List Nat) :
    (l.foldl exportStep (fs, lab)).2 = lab ++ labelsBin (l.map (fun p => p.2.label)) := by
  induction l generalizing fs lab with
  | nil => simp [labelsBin]
  | cons p l ih =>
    simp only [List.foldl_cons, exportStep, List.map_cons, labelsBin]
    rw [ih]
    simp [List.append_assoc]

lemma exportFold_labels (l : List (Nat × Sample)) (fs : FS) (lab : List Nat) :
    (l.foldl exportStep (fs, lab)).1 FileName.labels = fs FileName.labels := by
  induction l generalizing fs lab with
  | nil => rfl
  | cons p l ih =>
    simp only [List.foldl_cons, exportStep]
    rw [ih]
    simp [writeFile]

lemma exportFold_image_lt (samples : List Sample) (k : Nat) (fs : FS)
    (lab : List Nat) (i : Nat) (hik : i < k) :
    ((List.enumFrom k samples).foldl exportStep (fs, lab)).1 (FileName.image i) =
      fs (FileName.image i) := by
  induction samples generalizing k fs lab with
  | nil => rfl
  | cons s ss ih =>
    simp only [List.enumFrom, List.foldl_cons, exportStep]
    rw [ih (k + 1) _ _ (Nat.lt_succ_of_lt hik)]
    simp only [writeFile]
    rw [if_neg]
    intro hcon
    exact absurd (FileName.image.inj hcon) (Nat.ne_of_lt hik)

lemma exportFold_image_ge (samples : List Sample) (k : Nat) (fs : FS)
    (lab : List Nat) (i : Nat) (hik : k + samples.length ≤ i) :
    ((List.enumFrom k samples).foldl exportStep (fs, lab)).1 (FileName.image i) =
      fs (FileName.image i) := by
  induction samples generalizing k fs lab with
  | nil => rfl
  | cons s ss ih =>
    simp only [List.enumFrom, List.foldl_cons, exportStep]
    have hik' : k + 1 + ss.length ≤ i := by
      simp only [List.length_cons] at hik
      omega
    rw [ih (k + 1) _ _ hik']
    simp only [writeFile]
    rw [if_neg]
    intro hcon
    have : i = k := FileName.image.inj hcon
    omega

lemma exportFold_image_hit (samples : List Sample) (k : Nat) (fs : FS)
    (lab : List Nat) (j : Nat) (hj : j < samples.length) :
    ((List.enumFrom k samples).foldl exportStep (fs, lab)).1 (FileName.image (k + j)) =
      some (imageBin (samples.get ⟨j, hj⟩).image) := by
  induction samples generalizing k fs lab j with
  | nil => exact absurd hj (Nat.not_lt_zero j)
  | cons s ss ih =>
    simp only [List.enumFrom, List.foldl_cons, exportStep]
    cases j with
    | zero =>
      rw [exportFold_image_lt ss (k + 1) _ _ (k + 0) (by omega)]
      simp [writeFile]
    | succ j' =>
      have hj' : j' < ss.length := by
        simp only [List.length_cons] at hj
        omega
      have harith : k + (j' + 1) = (k + 1) + j' := by omega
      rw [harith, ih (k + 1) _ _ j' hj']
      rfl

lemma enumFrom_map_snd_comp (f : Sample → β) (l : List Sample) (k : Nat) :
    (List.enumFrom k l).map (fun p => f p.2) = l.map f := by
  induction l generalizing k with
  | nil => rfl
  | cons s ss ih => simp [List.enumFrom, ih]

lemma exportRun_labels_eq (fs : FS) (samples : List Sample) :
    exportRun fs samples FileName.labels = some (labelsBin (samples.map Sample.label)) := by
  show writeFile _ FileName.labels _ FileName.labels = _
  unfold writeFile
  rw [if_pos rfl, exportFold_snd]
  simp only [List.nil_append, Option.some.injEq]
  congr 1
  exact enumFrom_map_snd_comp Sample.label samples 0

lemma exportRun_image_eq (fs : FS) (samples : List Sample) (i : Nat)
    (hi : i < samples.length) :
    exportRun fs samples (FileName.image i) =
      some (imageBin (samples.get ⟨i, hi⟩).image) := by
  show writeFile _ FileName.labels _ (FileName.image i) = _
  simp only [writeFile, if_neg (by simp : FileName.image i ≠ FileName.labels)]
  have h := exportFold_image_hit samples 0 fs [] i hi
  simpa using h

lemma exportRun_image_untouched (fs : FS) (samples : List Sample) (i : Nat)
    (hi : samples.length ≤ i) :
    exportRun fs samples (FileName.image i) = fs (FileName.image i) := by
  show writeFile _ FileName.labels _ (FileName.image i) = _
  simp only [writeFile, if_neg (by simp : FileName.image i ≠ FileName.labels)]
  exact exportFold_image_ge samples 0 fs [] i (by omega)

lemma flattenGrid_eq_flatten (g : List (List α)) : flattenGrid g = g.flatten := by
  induction g with
  | nil => rfl
  | cons r rs ih => simp [flattenGrid, ih]

/-- An empty starting file system. -/
def emptyFS : FS := fun _ => none

/-- A starting file system with stale content everywhere, to exercise
overwriting. -/
def junkFS : FS := fun _ => some [9, 9]

/-- A synthetic 3-sample split with labels [1, 4, 7] (Scenario A). -/
def split3 : List Sample := [⟨[[0]], 1⟩, ⟨[[0]], 4⟩, ⟨[[0]], 7⟩]

/-- An all-zero 28×28 image (float32 bit patterns). -/
def img28 : List (List Nat) := List.replicate 28 (List.replicate 28 0)

/-- A synthetic 1-sample split with a full-size image. -/
def split1 : List Sample := [⟨img28, 5⟩]

/-- C2: for every split of N samples the exported label file is, in
enumeration order, one unsigned 32-bit record per sample with no separators:
its byte length is exactly 4·N and decoding it yields exactly the labels. -/
theorem labels_file_layout (fs : FS) (samples : List Sample)
    (hlab : ∀ s ∈ samples, s.label < 4294967296) :
    exportRun fs samples FileName.labels = some (labelsBin (samples.map Sample.label)) ∧
    (labelsBin (samples.map Sample.label)).length = 4 * samples.length ∧
    decodeU32s (labelsBin (samples.map Sample.label)) = samples.map Sample.label := by
  refine ⟨exportRun_labels_eq fs samples, ?_, ?_⟩
  · rw [labelsBin_length, List.length_map]
  · apply decodeU32s_labelsBin
    intro l hl
    obtain ⟨s, hs, rfl⟩ := List.mem_map.mp hl
    exact hlab s hs

/-- C2 witness: Scenario A — exporting the 3-sample split with labels
[1, 4, 7] writes a 12-byte `labels.bin` that decodes back to [1, 4, 7]. -/
theorem labels_file_layout_witness :
    exportRun emptyFS split3 FileName.labels = some (labelsBin [1, 4, 7]) ∧
    (labelsBin [1, 4, 7]).length = 4 * 3 ∧
    decodeU32s (labelsBin [1, 4, 7]) = [1, 4, 7] :=
  labels_file_layout emptyFS split3 (by decide)

/-- C3: for every sample at index i of the split, the export writes
`image_<i>.bin` holding exactly the row-major flattening of the sample's
28×28 image as 784 4-byte float32 records — 3,136 bytes — decoding back to
exactly the source pixel values; in particular any interpretation of the
pixel values under which the source pixels lie in [0,1] puts the decoded
values in [0,1] as well. -/
theorem image_file_layout (fs : FS) (samples : List Sample) (i : Nat)
    (hi : i < samples.length)
    (h28 : (samples.get ⟨i, hi⟩).image.length = 28)
    (hrow : ∀ r ∈ (samples.get ⟨i, hi⟩).image, r.length = 28)
    (hpat : ∀ p ∈ flattenGrid (samples.get ⟨i, hi⟩).image, p < 4294967296) :
    exportRun fs samples (FileName.image i) =
      some (imageBin (samples.get ⟨i, hi⟩).image) ∧
    (imageBin (samples.get ⟨i, hi⟩).image).length = 3136 ∧
    decodeU32s (imageBin (samples.get ⟨i, hi⟩).image) =
      flattenGrid (samples.get ⟨i, hi⟩).image ∧
    ∀ v : Nat → ℚ, (∀ p ∈ flattenGrid (samples.get ⟨i, hi⟩).image, 0 ≤ v p ∧ v p ≤ 1) →
      ∀ q ∈ (decodeU32s (imageBin (samples.get ⟨i, hi⟩).image)).map v, 0 ≤ q ∧ q ≤ 1 := by
  have hdec : decodeU32s (imageBin (samples.get ⟨i, hi⟩).image) =
      flattenGrid (samples.get ⟨i, hi⟩).image := by
    rw [imageBin_eq_labelsBin]
    exact decodeU32s_labelsBin _ hpat
  refine ⟨exportRun_image_eq fs samples i hi, ?_, hdec, ?_⟩
  · rw [imageBin_eq_labelsBin, labelsBin_length,
      flattenGrid_length_28 _ h28 hrow]
  · intro v hv q hq
    rw [hdec] at hq
    obtain ⟨p, hp, rfl⟩ := List.mem_map.mp hq
    exact hv p hp

/-- C3 witness: exporting a 1-sample split whose image is an all-zero 28×28
grid yields a 3,136-byte `image_0.bin` decoding back to the flattened
source pixels. -/
theorem image_file_layout_witness :
    exportRun emptyFS split1 (FileName.image 0) = some (imageBin img28) ∧
    (imageBin img28).length = 3136 ∧
    decodeU32s (imageBin img28) = flattenGrid img28 ∧
    (∀ v : Nat → ℚ, (∀ p ∈ flattenGrid img28, 0 ≤ v p ∧ v p ≤ 1) →
      ∀ q ∈ (decodeU32s (imageBin img28)).map v, 0 ≤ q ∧ q ≤ 1) := by
  have h28 : img28.length = 28 := by simp [img28]
  have hrow : ∀ r ∈ img28, r.length = 28 := by
    intro r hr
    simp only [img28] at hr
    rw [List.eq_of_mem_replicate hr]
    simp
  have hpat : ∀ p ∈ flattenGrid img28, p < 4294967296 := by
    intro p hp
    rw [flattenGrid_eq_flatten] at hp
    obtain ⟨r, hr, hpr⟩ := List.mem_flatten.mp hp
    simp only [img28] at hr
    rw [List.eq_of_mem_replicate hr] at hpr
    rw [List.eq_of_mem_replicate hpr]
    norm_num
  exact image_file_layout emptyFS split1 0 (by simp [split1]) h28 hrow hpat

/-- C6: the export is deterministic and idempotent — the bytes of every
exported file (the label stream and every in-range per-index image file) do
not depend on the prior file-system state, so re-running against the same
split is byte-identical; running the export twice equals running it once;
and the label stream lists the labels in the split's canonical enumeration
order on every run. -/
theorem export_deterministic_idempotent (fs fs' : FS) (samples : List Sample)
    (n : FileName) (hn : exportedName samples.length n) :
    exportRun fs samples n = exportRun fs' samples n ∧
    exportRun (exportRun fs samples) samples = exportRun fs samples ∧
    exportRun fs samples FileName.labels = some (labelsBin (samples.map Sample.label)) := by
  have hdet : ∀ g g' : FS, ∀ m : FileName, exportedName samples.length m →
      exportRun g samples m = exportRun g' samples m := by
    intro g g' m hm
    cases m with
    | labels => rw [exportRun_labels_eq, exportRun_labels_eq]
    | image i =>
      have hi : i < samples.length := hm
      rw [exportRun_image_eq g samples i hi, exportRun_image_eq g' samples i hi]
  refine ⟨hdet fs fs' n hn, ?_, exportRun_labels_eq fs samples⟩
  funext m
  cases m with
  | labels => rw [exportRun_labels_eq, exportRun_labels_eq]
  | image i =>
    by_cases hi : i < samples.length
    · exact hdet (exportRun fs samples) fs (FileName.image i) hi
    · rw [exportRun_image_untouched _ samples i (Nat.le_of_not_lt hi)]

/-- C6 witness: for the 1-sample split, exporting over a junk-filled file
system and over an empty one writes the same `labels.bin` bytes, and the
export is idempotent. -/
theorem export_deterministic_idempotent_witness :
    exportRun junkFS split1 FileName.labels = exportRun emptyFS split1 FileName.labels ∧
    exportRun (exportRun junkFS split1) split1 = exportRun junkFS split1 ∧
    exportRun junkFS split1 FileName.labels = some (labelsBin (split1.map Sample.label)) :=
  export_deterministic_idempotent junkFS emptyFS split1 FileName.labels trivial

/-! Helper lemmas about `argmaxIdx`. -/

lemma argmaxIdx_lt_length : ∀ v : List ℚ, v ≠ [] → argmaxIdx v < v.length
  | [], h => absurd rfl h
  | x :: xs, _ => by
    simp only [argmaxIdx]
    cases hxs : xs[argmaxIdx xs]? with
    | none => simp
    | some m =>
      have hj : argmaxIdx xs < xs.length := by
        have := List.getElem?_eq_some_iff.mp hxs
        exact this.1
      by_cases hlt : x < m
      · simp only [hlt, if_true, List.length_cons]
        omega
      · simp [hlt]

lemma argmaxIdx_is_max : ∀ (v : List ℚ) (i : Nat), i < v.length →
    v.getD i 0 ≤ v.getD (argmaxIdx v) 0
  | [], i, hi => absurd hi (by simp)
  | x :: xs, i, hi => by
    simp only [argmaxIdx]
    cases hxs : xs[argmaxIdx xs]? with
    | none =>
      have hxs' : xs = [] := by
        cases xs with
        | nil => rfl
        | cons y ys =>
          exfalso
          have hj : argmaxIdx (y :: ys) < (y :: ys).length :=
            argmaxIdx_lt_length (y :: ys) (by simp)
          rw [List.getElem?_eq_none_iff] at hxs
          omega
      subst hxs'
      have hi0 : i = 0 := by
        simp only [List.length_cons, List.length_nil] at hi
        omega
      subst hi0
      simp
    | some m =>
      have hj : argmaxIdx xs < xs.length := (List.getElem?_eq_some_iff.mp hxs).1
      have hm : xs.getD (argmaxIdx xs) 0 = m := by
        rw [List.getD_eq_getElem xs 0 hj]
        exact (List.getElem?_eq_some_iff.mp hxs).2
      by_cases hlt : x < m
      · simp only [hlt, if_true]
        cases i with
        | zero =>
          simp only [List.getD_cons_zero, List.getD_cons_succ, hm]
          exact le_of_lt hlt
        | succ i' =>
          simp only [List.getD_cons_succ]
          exact argmaxIdx_is_max xs i' (by simpa using hi)
      · simp only [hlt, if_false]
        cases i with
        | zero => simp
        | succ i' =>
          simp only [List.getD_cons_succ, List.getD_cons_zero]
          calc xs.getD i' 0 ≤ xs.getD (argmaxIdx xs) 0 :=
                argmaxIdx_is_max xs i' (by simpa using hi)
            _ = m := hm
            _ ≤ x := not_lt.mp hlt

/-- A 1×1 linear layer used for concrete instantiations. -/
def lin1 : Linear := ⟨[[1]], [0]⟩

/-- A concrete network whose layers are all 1×1 — shapes are not those of the
source network, but `forward` is shape-generic, so it serves as a concrete
input for witnesses. -/
def netW : NeuralNetwork := ⟨lin1, lin1, lin1, lin1, lin1⟩

/-- C4: the forward pass computes `head((ReLU ∘ leftB)((ReLU ∘ leftA)(t)) +
(ReLU ∘ right)(t))` for `t = ReLU(trunk(flatten(x)))`, with no activation on
the head and each linear layer computing weight·input + bias; and the
predicted class — the first index `argmax` returns — attains the maximum of
the raw scores. -/
theorem forward_matches_spec (m : NeuralNetwork) (x0 : List (List ℚ))
    (v : List ℚ) (hv : v ≠ []) :
    m.forward x0 = specForwardPass m x0 ∧
    argmaxIdx v < v.length ∧
    ∀ i, i < v.length → v.getD i 0 ≤ v.getD (argmaxIdx v) 0 :=
  ⟨rfl, argmaxIdx_lt_length v hv, fun i hi => argmaxIdx_is_max v i hi⟩

/-- C4 witness: the concrete 1×1 network and the score vector [1, 3, 2]. -/
theorem forward_matches_spec_witness :
    netW.forward [[1]] = specForwardPass netW [[1]] ∧
    argmaxIdx [1, 3, 2] < ([1, 3, 2] : List ℚ).length ∧
    ∀ i, i < ([1, 3, 2] : List ℚ).length →
      ([1, 3, 2] : List ℚ).getD i 0 ≤ ([1, 3, 2] : List ℚ).getD (argmaxIdx [1, 3, 2]) 0 :=
  forward_matches_spec netW [[1]] [1, 3, 2] (by simp)

/-! Helper lemmas about layer output widths. -/

lemma Linear.apply_length (l : Linear) (x : List ℚ) :
    (l.apply x).length = min l.weight.length l.bias.length := by
  simp [Linear.apply, List.length_zipWith]

lemma reluV_length (v : List ℚ) : (reluV v).length = v.length := by
  simp [reluV]

lemma leftOut_length (m : NeuralNetwork) (x0 : List (List ℚ)) :
    (m.leftOut x0).length =
      min m.left_branch_gemm2.weight.length m.left_branch_gemm2.bias.length := by
  simp [NeuralNetwork.leftOut, reluV_length, Linear.apply_length]

lemma rightOut_length (m : NeuralNetwork) (x0 : List (List ℚ)) :
    (m.rightOut x0).length =
      min m.right_branch_gemm1.weight.length m.right_branch_gemm1.bias.length := by
  simp [NeuralNetwork.rightOut, reluV_length, Linear.apply_length]

lemma forward_eq_head_merged (m : NeuralNetwork) (x0 : List (List ℚ)) :
    m.forward x0 = m.gemm2.apply (m.merged x0) := rfl

/-- A 100-output linear layer with empty input rows, used to instantiate
shape facts concretely. -/
def lin100 : Linear := ⟨List.replicate 100 [], List.replicate 100 0⟩

/-- A 50-output linear layer, used as a deliberately mis-configured right
branch. -/
def lin50 : Linear := ⟨List.replicate 50 [], List.replicate 50 0⟩

/-- A network with the source's merge widths: leftB and right both produce
100 outputs. -/
def wfNet : NeuralNetwork := ⟨lin1, lin1, lin100, lin100, lin1⟩

/-- A deliberately mis-configured network: leftB produces 100 outputs, right
produces 50. -/
def badNet : NeuralNetwork := ⟨lin1, lin1, lin100, lin50, lin1⟩

/-- C7: when leftB and right both have 100 output rows (the source's fixed
configuration), the two branch outputs have width 100 on every input and the
checked merge succeeds, producing the unchecked forward output; when the
widths differ, the checked forward fails with `ShapeMismatch` before any
output is produced. -/
theorem merge_width_invariant (m : NeuralNetwork) (x0 : List (List ℚ)) :
    ((m.left_branch_gemm2.weight.length = 100 ∧ m.left_branch_gemm2.bias.length = 100 ∧
      m.right_branch_gemm1.weight.length = 100 ∧ m.right_branch_gemm1.bias.length = 100) →
      (m.leftOut x0).length = 100 ∧ (m.rightOut x0).length = 100 ∧
      m.forwardChecked x0 = Except.ok (m.forward x0)) ∧
    ((m.leftOut x0).length ≠ (m.rightOut x0).length →
      m.forwardChecked x0 = Except.error PipelineError.ShapeMismatch) := by
  constructor
  · rintro ⟨h1, h2, h3, h4⟩
    have hl : (m.leftOut x0).length = 100 := by rw [leftOut_length, h1, h2]; rfl
    have hr : (m.rightOut x0).length = 100 := by rw [rightOut_length, h3, h4]; rfl
    refine ⟨hl, hr, ?_⟩
    show (match addVChecked (m.leftOut x0) (m.rightOut x0) with
      | Except.ok x => Except.ok (m.gemm2.apply x)
      | Except.error e => Except.error e) = Except.ok (m.forward x0)
    rw [addVChecked, if_pos (by rw [hl, hr])]
    rfl
  · intro hne
    show (match addVChecked (m.leftOut x0) (m.rightOut x0) with
      | Except.ok x => Except.ok (m.gemm2.apply x)
      | Except.error e => Except.error e) = Except.error PipelineError.ShapeMismatch
    rw [addVChecked, if_neg hne]

/-- C7 witness: the source-width network merges fine on a concrete input and
the checked forward agrees with the plain forward; the mis-configured
network (100-wide leftB against 50-wide right) fails with `ShapeMismatch`. -/
theorem merge_width_invariant_witness :
    ((wfNet.leftOut [[1]]).length = 100 ∧ (wfNet.rightOut [[1]]).length = 100 ∧
      wfNet.forwardChecked [[1]] = Except.ok (wfNet.forward [[1]])) ∧
    badNet.forwardChecked [[1]] = Except.error PipelineError.ShapeMismatch := by
  constructor
  · exact (merge_width_invariant wfNet [[1]]).1
      ⟨by simp [wfNet, lin100], by simp [wfNet, lin100],
       by simp [wfNet, lin100], by simp [wfNet, lin100]⟩
  · exact (merge_width_invariant badNet [[1]]).2
      (by simp [leftOut_length, rightOut_length, badNet, lin100, lin50])

/-! Helper lemmas for nonnegativity of the merged tensor. -/

lemma reluV_nonneg (v : List ℚ) : ∀ q ∈ reluV v, 0 ≤ q := by
  intro q hq
  obtain ⟨a, _, rfl⟩ := List.mem_map.mp hq
  exact le_max_left 0 a

lemma addV_nonneg : ∀ (v w : List ℚ), (∀ a ∈ v, 0 ≤ a) → (∀ b ∈ w, 0 ≤ b) →
    ∀ q ∈ addV v w, 0 ≤ q
  | [], _, _, _ => by simp [addV]
  | _ :: _, [], _, _ => by simp [addV]
  | x :: xs, y :: ys, hv, hw => by
    intro q hq
    simp only [addV, List.zipWith_cons_cons, List.mem_cons] at hq
    rcases hq with rfl | hq
    · exact add_nonneg (hv x (by simp)) (hw y (by simp))
    · exact addV_nonneg xs ys (fun a ha => hv a (by simp [ha]))
        (fun b hb => hw b (by simp [hb])) q hq

/-- C10: every component of the merged tensor — the elementwise sum of the
two ReLU branch outputs — is nonnegative, and it is exactly this tensor that
the output head `gemm2` receives. -/
theorem merged_nonneg (m : NeuralNetwork) (x0 : List (List ℚ)) (q : ℚ)
    (hq : q ∈ m.merged x0) :
    0 ≤ q ∧ m.forward x0 = m.gemm2.apply (m.merged x0) := by
  refine ⟨?_, forward_eq_head_merged m x0⟩
  exact addV_nonneg (m.leftOut x0) (m.rightOut x0)
    (reluV_nonneg _) (reluV_nonneg _) q hq

/-- C10 witness: on the 1×1 network the merged tensor is `[2]`, and `2` is
nonnegative. -/
theorem merged_nonneg_witness :
    (0 : ℚ) ≤ 2 ∧ netW.forward [[1]] = netW.gemm2.apply (netW.merged [[1]]) :=
  merged_nonneg netW [[1]] 2 (by norm_num [NeuralNetwork.merged, NeuralNetwork.leftOut,
    NeuralNetwork.rightOut, NeuralNetwork.trunkOut, netW, lin1, Linear.apply, dot,
    reluV, addV, flattenGrid])

/-! Helper lemmas about the evaluation fold. -/

lemma evalFold_fst (crit : List ℚ → Nat → ℚ) (batches : List (List EvalSample))
    (st : NeuralNetwork × EvalAcc) :
    (batches.foldl (evalBatchStep crit) st).1 = st.1 := by
  induction batches generalizing st with
  | nil => rfl
  | cons b bs ih =>
    rw [List.foldl_cons, ih]
    rfl

lemma evalFold_correct (crit : List ℚ → Nat → ℚ) (batches : List (List EvalSample))
    (st : NeuralNetwork × EvalAcc) :
    (batches.foldl (evalBatchStep crit) st).2.correct =
      st.2.correct +
        (batches.map (fun b =>
          (b.filter (fun s => argmaxIdx (st.1.forward s.image) == s.label)).length)).sum := by
  induction batches generalizing st with
  | nil => simp
  | cons b bs ih =>
    rw [List.foldl_cons, ih]
    simp only [evalBatchStep, List.map_cons, List.sum_cons]
    omega

lemma evalFold_loss (crit : List ℚ → Nat → ℚ) (batches : List (List EvalSample))
    (st : NeuralNetwork × EvalAcc) :
    (batches.foldl (evalBatchStep crit) st).2.test_loss =
      st.2.test_loss +
        (batches.map (fun b =>
          (b.map (fun s => crit (st.1.forward s.image) s.label)).sum / (b.length : ℚ))).sum := by
  induction batches generalizing st with
  | nil => simp
  | cons b bs ih =>
    rw [List.foldl_cons, ih]
    simp only [evalBatchStep, List.map_cons, List.sum_cons]
    ring

lemma chunksOf_flatten (k : Nat) (hk : 1 ≤ k) : ∀ l : List α, (chunksOf k l).flatten = l
  | [] => by rw [chunksOf]; rfl
  | x :: xs => by
    rw [chunksOf]
    simp only [List.flatten_cons]
    rw [chunksOf_flatten k hk (xs.drop (k - 1))]
    simp [List.cons_append, List.take_append_drop]
termination_by l => l.length
decreasing_by
  simp only [List.length_drop, List.length_cons]
  omega

lemma sum_filter_lengths (p : α → Bool) (batches : List (List α)) :
    (batches.map (fun b => (b.filter p).length)).sum = (batches.flatten.filter p).length := by
  induction batches with
  | nil => simp
  | cons b bs ih => simp [List.filter_append, ih]

/-- The total correct-count of an `EVAL_EPOCH` equals the number of samples
of the split whose predicted class equals their label. -/
lemma evalEpoch_correct_eq (crit : List ℚ → Nat → ℚ) (m : NeuralNetwork)
    (data : List EvalSample) :
    ((chunksOf 1000 data).foldl (evalBatchStep crit) (m, ⟨0, 0⟩)).2.correct =
      (data.filter (fun s => argmaxIdx (m.forward s.image) == s.label)).length := by
  rw [evalFold_correct]
  simp only [sum_filter_lengths, chunksOf_flatten 1000 (by omega) data]
  omega

/-- The reported test loss of an `EVAL_EPOCH` is the sum of the per-batch
mean losses, divided by the number of held-out samples — this is the exact
accumulation of `test_loss += criterion(output, target).item()` followed by
`test_loss /= len(test_loader.dataset)`. -/
lemma evalEpoch_loss_eq (crit : List ℚ → Nat → ℚ) (m : NeuralNetwork)
    (data : List EvalSample) :
    (evalEpoch crit m data).2.1 =
      ((chunksOf 1000 data).map (fun b =>
        (b.map (fun s => crit (m.forward s.image) s.label)).sum / (b.length : ℚ))).sum /
        (data.length : ℚ) := by
  show ((chunksOf 1000 data).foldl (evalBatchStep crit) (m, ⟨0, 0⟩)).2.test_loss /
      (data.length : ℚ) = _
  rw [evalFold_loss]
  norm_num

/-- C8: the evaluation pass leaves the model untouched — the model state
threaded through the whole `EVAL_EPOCH` fold equals the model state before
it (the loop body under `torch.no_grad()` only reads the weights). -/
theorem eval_preserves_model (crit : List ℚ → Nat → ℚ) (m : NeuralNetwork)
    (data : List EvalSample) :
    (evalEpoch crit m data).1 = m := by
  show ((chunksOf 1000 data).foldl (evalBatchStep crit) (m, ⟨0, 0⟩)).1 = m
  exact evalFold_fst crit (chunksOf 1000 data) (m, ⟨0, 0⟩)

/-- C9: for every nonempty evaluation split, the reported accuracy equals
100 × (number of samples whose predicted class equals their label) / N, the
correct-count never exceeds N, and the accuracy lies in [0, 100]. -/
theorem accuracy_in_range (crit : List ℚ → Nat → ℚ) (m : NeuralNetwork)
    (data : List EvalSample) (hne : data ≠ []) :
    (evalEpoch crit m data).2.2 =
      100 * ((data.filter (fun s => argmaxIdx (m.forward s.image) == s.label)).length : ℚ) /
        (data.length : ℚ) ∧
    (data.filter (fun s => argmaxIdx (m.forward s.image) == s.label)).length ≤ data.length ∧
    0 ≤ (evalEpoch crit m data).2.2 ∧ (evalEpoch crit m data).2.2 ≤ 100 := by
  have hacc : (evalEpoch crit m data).2.2 =
      100 * ((data.filter (fun s => argmaxIdx (m.forward s.image) == s.label)).length : ℚ) /
        (data.length : ℚ) := by
    show 100 * (((chunksOf 1000 data).foldl (evalBatchStep crit) (m, ⟨0, 0⟩)).2.correct : ℚ) /
        (data.length : ℚ) = _
    rw [evalEpoch_correct_eq]
  have hcle : (data.filter (fun s => argmaxIdx (m.forward s.image) == s.label)).length ≤
      data.length := List.length_filter_le _ _
  have hN : (0 : ℚ) < (data.length : ℚ) := by
    have : 0 < data.length := List.length_pos.mpr hne
    exact_mod_cast this
  refine ⟨hacc, hcle, ?_, ?_⟩
  · rw [hacc]
    positivity
  · rw [hacc, div_le_iff₀ hN]
    have hc : ((data.filter (fun s => argmaxIdx (m.forward s.image) == s.label)).length : ℚ) ≤
        (data.length : ℚ) := by exact_mod_cast hcle
    linarith

/-- A concrete single evaluation sample for witnesses. -/
def evalS : EvalSample := ⟨[[1]], 0⟩

/-- C9 witness: the 1×1 network on a single sample with label 0 — the sample
is predicted correctly, so the accuracy is 100·1/1 and lies in [0, 100]. -/
theorem accuracy_in_range_witness :
    (evalEpoch (fun _ _ => 0) netW [evalS]).2.2 =
      100 * (([evalS].filter (fun s => argmaxIdx (netW.forward s.image) == s.label)).length : ℚ) /
        (([evalS] : List EvalSample).length : ℚ) ∧
    ([evalS].filter (fun s => argmaxIdx (netW.forward s.image) == s.label)).length ≤
      ([evalS] : List EvalSample).length ∧
    0 ≤ (evalEpoch (fun _ _ => 0) netW [evalS]).2.2 ∧
    (evalEpoch (fun _ _ => 0) netW [evalS]).2.2 ≤ 100 :=
  accuracy_in_range (fun _ _ => 0) netW [evalS] (by simp)

/-! The reported test loss (claim C1).  The source accumulates
`criterion(output, target).item()` per batch, where `nn.CrossEntropyLoss`
with its default mean reduction yields the batch-mean per-sample loss, and
then divides the accumulated value by `len(test_loader.dataset)`.  The
result is `(sum of per-batch mean losses) / N`, which for equal batches of
size 1000 is the true mean per-sample loss divided by 1000 — not the mean
per-sample loss the spec reports.  (Per-sample cross-entropy is strictly
positive — it is `-log` of a probability strictly below 1 — so the factor
1000 is never invisible on a real split.)  The theorem below evaluates the
embedded eval epoch at a failing input: a 1000-sample split whose
per-sample loss is constantly 1. -/

lemma chunksOf_of_length_le (k : Nat) (l : List α) (hne : l ≠ []) (hlen : l.length ≤ k) :
    chunksOf k l = [l] := by
  cases l with
  | nil => exact absurd rfl hne
  | cons x xs =>
    rw [chunksOf]
    have hxs : xs.length ≤ k - 1 := by
      simp only [List.length_cons] at hlen
      omega
    rw [List.take_of_length_le hxs, List.drop_of_length_le hxs]
    rw [chunksOf]

/-- C1: the code under-reports the test loss by the batch size.  On a
1000-sample held-out split whose per-sample loss is constantly 1, the true
mean per-sample loss is 1, but the eval epoch reports 1/1000. -/
theorem reported_loss_not_mean :
    (evalEpoch (fun _ _ => 1) netW (List.replicate 1000 evalS)).2.1 = 1 / 1000 ∧
    meanLoss (fun _ _ => 1) netW (List.replicate 1000 evalS) = 1 ∧
    (evalEpoch (fun _ _ => 1) netW (List.replicate 1000 evalS)).2.1 ≠
      meanLoss (fun _ _ => 1) netW (List.replicate 1000 evalS) := by
  have hne : List.replicate 1000 evalS ≠ [] := by
    intro h
    have h0 : (List.replicate 1000 evalS).length = 0 := by rw [h]; rfl
    rw [List.length_replicate] at h0
    exact absurd h0 (by norm_num)
  have hchunk : chunksOf 1000 (List.replicate 1000 evalS) = [List.replicate 1000 evalS] :=
    chunksOf_of_length_le 1000 _ hne (by rw [List.length_replicate])
  have hrep : (evalEpoch (fun _ _ => 1) netW (List.replicate 1000 evalS)).2.1 = 1 / 1000 := by
    rw [evalEpoch_loss_eq, hchunk]
    rw [List.map_cons, List.map_nil, List.sum_cons, List.sum_nil, List.map_replicate,
      List.sum_replicate, List.length_replicate]
    rw [nsmul_eq_mul]
    norm_num
  have hmean : meanLoss (fun _ _ => 1) netW (List.replicate 1000 evalS) = 1 := by
    rw [meanLoss, List.map_replicate, List.sum_replicate, List.length_replicate]
    rw [nsmul_eq_mul]
    norm_num
  refine ⟨hrep, hmean, ?_⟩
  rw [hrep, hmean]
  norm_num

/-- The stage trace of `n` successful epochs starting at epoch `e`. -/
def epochTrace (e : Nat) : Nat → List Stage
  | 0 => []
  | n + 1 => Stage.TRAIN e :: Stage.EVAL e :: epochTrace (e + 1) n

lemma export_not_in_epochs (tOk eOk : Nat → Bool) :
    ∀ (n e : Nat), Stage.EXPORT ∉ (runEpochsFrom tOk eOk e n).1 := by
  intro n
  induction n with
  | zero => intro e; simp [runEpochsFrom]
  | succ n ih =>
    intro e
    simp only [runEpochsFrom]
    by_cases ht : tOk e
    · by_cases he : eOk e
      · simp only [ht, he, if_true, List.mem_cons]
        push_neg
        exact ⟨by simp, by simp, ih (e + 1)⟩
      · simp [ht, he]
    · simp [ht]

lemma runEpochsFrom_all_ok (tOk eOk : Nat → Bool) :
    ∀ (n e : Nat), (∀ i, i < n → tOk (e + i) = true ∧ eOk (e + i) = true) →
      runEpochsFrom tOk eOk e n = (epochTrace e n, true) := by
  intro n
  induction n with
  | zero => intro e _; rfl
  | succ n ih =>
    intro e h
    have h0 := h 0 (by omega)
    simp only [Nat.add_zero] at h0
    simp only [runEpochsFrom, h0.1, h0.2, if_true]
    rw [ih (e + 1) (fun i hi => by
      have := h (i + 1) (by omega)
      simpa [Nat.add_assoc, Nat.add_comm 1 i] using this)]
    rfl

lemma runEpochsFrom_ok_all (tOk eOk : Nat → Bool) :
    ∀ (n e : Nat), (runEpochsFrom tOk eOk e n).2 = true →
      ∀ i, i < n → tOk (e + i) = true ∧ eOk (e + i) = true := by
  intro n
  induction n with
  | zero => intro e _ i hi; omega
  | succ n ih =>
    intro e hok i hi
    by_cases ht : tOk e
    · by_cases he : eOk e
      · simp only [runEpochsFrom, ht, he, if_true] at hok
        cases i with
        | zero => simpa using ⟨ht, he⟩
        | succ i' =>
          have := ih (e + 1) hok i' (by omega)
          simpa [Nat.add_assoc, Nat.add_comm 1 i'] using this
      · simp [runEpochsFrom, ht, he] at hok
    · simp [runEpochsFrom, ht] at hok

/-- C5: with the dataset available and all 20 stage bodies completing, the
run is exactly `TRAIN 0, EVAL 0, …, TRAIN 9, EVAL 9` in strict alternation
followed by a single `EXPORT`; if the dataset is unavailable, or any of the
10 epochs' train or eval body fails, the trace contains no `EXPORT` — no
export artifact is produced — and the run is marked failed. -/
theorem pipeline_stage_sequence (dOk : Bool) (tOk eOk : Nat → Bool) :
    ((dOk = true) → (∀ i, i < 10 → tOk i = true ∧ eOk i = true) →
      runPipeline dOk tOk eOk = (fullTrace, true)) ∧
    ((dOk = false ∨ ∃ i, i < 10 ∧ (tOk i = false ∨ eOk i = false)) →
      Stage.EXPORT ∉ (runPipeline dOk tOk eOk).1 ∧ (runPipeline dOk tOk eOk).2 = false) := by
  constructor
  · intro hd hall
    subst hd
    have h10 : runEpochsFrom tOk eOk 0 10 = (epochTrace 0 10, true) :=
      runEpochsFrom_all_ok tOk eOk 10 0 (fun i hi => by simpa using hall i hi)
    simp only [runPipeline, if_true, h10]
    rfl
  · intro hfail
    cases dOk with
    | false => simp [runPipeline]
    | true =>
      have hfalse : (runEpochsFrom tOk eOk 0 10).2 = false := by
        cases hcase : (runEpochsFrom tOk eOk 0 10).2 with
        | false => rfl
        | true =>
          exfalso
          have hall := runEpochsFrom_ok_all tOk eOk 10 0 hcase
          rcases hfail with hd | ⟨i, hi, hbad⟩
          · simp at hd
          · have hok2 := hall i hi
            simp only [Nat.zero_add] at hok2
            rcases hbad with hb | hb
            · rw [hok2.1] at hb
              simp at hb
            · rw [hok2.2] at hb
              simp at hb
      have hred : runPipeline true tOk eOk = ((runEpochsFrom tOk eOk 0 10).1, false) := by
        simp [runPipeline, hfalse]
      rw [hred]
      exact ⟨export_not_in_epochs tOk eOk 10 0, rfl⟩

/-- C5 witness: with the dataset available and every stage body succeeding,
the run executes the full alternating 10-epoch trace followed by the single
export. -/
theorem pipeline_stage_sequence_witness :
    runPipeline true (fun _ => true) (fun _ => true) = (fullTrace, true) :=
  (pipeline_stage_sequence true (fun _ => true) (fun _ => true)).1 rfl
    (fun _ _ => ⟨rfl, rfl⟩)

end HiCRNN
